import Mathlib

/-!
Verification development for the `id_check` plugin
(`src/plugin/src/id_check.cc`).

The development shallowly embeds the plugin's configuration logic:
the token scanner and numeric parse of `Config::load`, the (defective)
binary-search loop of `Config::contains`, the argument loop of `Init`,
the message callback `CB_Msg`, the reload task `Task_ConfigReload`, and
an interleaving model of the reader / reload-task / message events that
act on the three pieces of shared state (`Plugin_Config`,
`Plugin_Config_Mutex`, `Plugin_Reloading`).

Machine integers are modelled as `Nat` with explicit clamping at
`2 ^ 64 - 1` where the external numeric parser saturates.  Fallible
operations return `Option` / `Except`.  The C++ loop of
`Config::contains`, whose body neither narrows the search interval nor
returns, is modelled with explicit fuel; falling off the end of the
non-void function (no `return` statement) is modelled as `some none`
("terminated without producing a boolean") while exhausting fuel inside
the loop is `none`.
-/

namespace IdCheck

/-- `UINT64_MAX`, the saturation bound of the numeric parser. -/
def UMAX : Nat := 2 ^ 64 - 1

/-- C-locale `isspace`: space, tab, newline, vertical tab, form feed,
carriage return. -/
def isSpaceChar (c : Char) : Bool :=
  c = ' ' || c = '\t' || c = '\n' || c = '\x0b' || c = '\x0c' || c = '\r'

/-- `is_delim` from `Config::load`: `isspace(c) || ',' == c`. -/
def isDelim (c : Char) : Bool := isSpaceChar c || c = ','

/-- One pass of the scan loop of `Config::load`
(`text.ltrim_if(is_delim).take_prefix_if(is_delim)`), with fuel for the
recursion: drop leading delimiters; the next token is the maximal
delimiter-free run; the delimiter terminating it (when present) is
consumed with the token.  The fuel is always sufficient because every
iteration consumes at least one character. -/
def tokenizeAux : Nat → List Char → List (List Char)
  | 0, _ => []
  | fuel + 1, cs =>
    match cs.dropWhile isDelim with
    | [] => []
    | c :: rest =>
      (c :: rest.takeWhile (fun d => !(isDelim d))) ::
        tokenizeAux fuel ((rest.dropWhile (fun d => !(isDelim d))).drop 1)

/-- The token sequence produced by the `while` loop of `Config::load`. -/
def tokenize (cs : List Char) : List (List Char) :=
  tokenizeAux (cs.length + 1) cs

/-- Numeric value of a character as a digit (0-9, a-z, A-Z), as in the
external parser's conversion table. -/
def digitVal (c : Char) : Option Nat :=
  if '0' ≤ c ∧ c ≤ '9' then some (c.toNat - '0'.toNat)
  else if 'a' ≤ c ∧ c ≤ 'z' then some (c.toNat - 'a'.toNat + 10)
  else if 'A' ≤ c ∧ c ≤ 'Z' then some (c.toNat - 'A'.toNat + 10)
  else none

/-- Radix accumulation of the external integer parser `swoc::svtou`:
consume the maximal run of digits valid for `base`, accumulating the
value and saturating at `UMAX` on overflow.  Returns the value and the
number of characters consumed. -/
def radixRun (base : Nat) (acc : Nat) : List Char → Nat × Nat
  | [] => (acc, 0)
  | c :: rest =>
    match digitVal c with
    | some v =>
      if v < base then
        let r := radixRun base (min (acc * base + v) UMAX) rest
        (r.1, r.2 + 1)
      else (acc, 0)
    | none => (acc, 0)

/-- The external numeric parser `swoc::svtou(token, &parsed)` with the
default auto-detected base: a leading `0x`/`0X` selects hexadecimal,
`0b`/`0B` binary, any other multi-character token starting with `0`
octal, and everything else decimal.  Returns the parsed value and the
length of the consumed prefix (the size of `parsed`). -/
def svtou (cs : List Char) : Nat × Nat :=
  match cs with
  | [] => (0, 0)
  | c0 :: rest =>
    if c0 = '0' ∧ rest ≠ [] then
      match rest with
      | [] => (0, 0)
      | c1 :: rest2 =>
        if c1 = 'x' ∨ c1 = 'X' then
          let r := radixRun 16 0 rest2
          (r.1, r.2 + 2)
        else if c1 = 'b' ∨ c1 = 'B' then
          let r := radixRun 2 0 rest2
          (r.1, r.2 + 2)
        else
          radixRun 8 0 cs
    else
      radixRun 10 0 cs

/-- The per-token branch of `Config::load`: the token is kept exactly
when the parsed prefix covers the whole token
(`parsed.size() == token.size()`), in which case its value is pushed;
otherwise the token is silently discarded (empty `if` branch). -/
def parseTok (t : List Char) : Option Nat :=
  let r := svtou t
  if r.2 = t.length then some r.1 else none

/-- The values pushed onto `_data` by the scan loop of `Config::load`,
in encounter order. -/
def collectVals (toks : List (List Char)) : List Nat :=
  toks.filterMap parseTok

/-- `std::sort(_data.begin(), _data.end(), std::less<...>())`: for
`uint64_t` elements the result is the unique non-decreasing permutation
of the input, modelled by insertion sort. -/
def sortVals (l : List Nat) : List Nat :=
  List.insertionSort (fun a b => a ≤ b) l

/-- The final `_data` contents produced by `Config::load` from the
file's text: scan tokens, keep the fully parsed ones, sort. -/
def loadValues (content : String) : List Nat :=
  sortVals (collectVals (tokenize content.toList))

/-- Errors of `Config::load`: only the I/O failure of
`swoc::file::load` produces one. -/
inductive LoadErr
  | ioError
deriving DecidableEq

/-- `Config::load` against a file system `fs` (mapping paths to
contents, `none` when unreadable): an `Errata` error exactly when
`swoc::file::load` sets the error code, otherwise the parsed and sorted
data. -/
def loadRes (fs : String → Option String) (file : String) :
    Except LoadErr (List Nat) :=
  match fs file with
  | none => Except.error LoadErr.ioError
  | some content => Except.ok (loadValues content)

/-- The `while (left < right)` loop of `Config::contains`, with fuel.
The body computes `spot = left + (right - left)/2` and nothing else: it
neither narrows `[left, right)` nor returns, so the iteration state
never changes.  Exhausting the fuel inside the loop yields `none`;
exiting the loop falls off the end of the non-void function with no
`return` statement, yielding `some none` (terminated, no boolean
produced). -/
def containsLoop : Nat → Nat → Nat → Option (Option Bool)
  | 0, _, _ => none
  | fuel + 1, left, right =>
    if left < right then
      let _spot := left + (right - left) / 2
      containsLoop fuel left right
    else
      some none

/-- `Config::contains(id)` on a snapshot whose `_data` is `data`:
run the loop from `left = _data.begin()`, `right = _data.end()`. -/
def containsRun (fuel : Nat) (data : List Nat) (id : Nat) :
    Option (Option Bool) :=
  containsLoop fuel 0 data.length

/-! ## Shared state and the event model

`Plugin_Config` (a shared pointer guarded by `Plugin_Config_Mutex`),
`Plugin_Reloading` (an atomic flag) and the set of scheduled
`Task_ConfigReload` executions are the only shared state.  The model
interleaves the atomic actions of the code: a `CB_Msg` delivery, the
three stages of a running reload task (construct the new `Config`,
assign `Plugin_Config` under the unique lock, clear `Plugin_Reloading`),
and a reader's `scoped_plugin_config()` copy under the shared lock. -/

/-- A `Config` object as published: its sorted `_data`. -/
structure Snapshot where
  data : List Nat
deriving DecidableEq

/-- Outcome of a reload-tagged `CB_Msg` delivery: the compare-and-set
won (task scheduled) or the "Reload requested while previous reload
still active" error was reported. -/
inductive Outcome
  | accepted
  | rejectedInProgress
deriving DecidableEq

/-- Progress of one scheduled `Task_ConfigReload` execution:
not yet begun; `cfg = std::make_shared<Config>()` complete (the task
never calls `Config::load`, so `cfg` holds the default-constructed
empty data); `Plugin_Config = cfg` assigned under the unique lock. -/
inductive TaskPhase
  | started
  | builtCfg (cfg : Snapshot)
  | published
deriving DecidableEq

/-- The shared state, plus two ghost histories: `built` records every
`Config` whose construction has completed (in completion order), and
`observed` records every handle a reader obtained. -/
structure SysState where
  store : Option Snapshot
  reloading : Bool
  tasks : List TaskPhase
  built : List Snapshot
  observed : List Snapshot
deriving DecidableEq

/-- `Config::PLUGIN_MSG_PREFIX`. -/
def msgPfx : List Char := "id_check.".toList

/-- `RELOAD_TAG` of `CB_Msg`. -/
def reloadTag : List Char := "reload".toList

/-- `strcasecmp(a, b) == 0`: case-insensitive equality. -/
def lowerEq (a b : List Char) : Bool :=
  a.map Char.toLower = b.map Char.toLower

/-- `TextView::starts_with_nocase(p)`. -/
def startsWithNoCase (p s : List Char) : Bool :=
  lowerEq p (s.take p.length)

/-- A default-constructed `swoc::Errata` reports no error:
`errata.is_ok()` is true.  `Task_ConfigReload` tests exactly this on
its freshly constructed `Errata` (it never runs a load that could add
an error), so its failure branch is unreachable. -/
def defaultErrataOk : Bool := true

/-- `CB_Msg` for a message with the given tag: if the tag is the
plugin's reload tag, try `Plugin_Reloading.compare_exchange_strong
(expected = false, true)`; on success schedule `Task_ConfigReload`,
otherwise report `rejectedInProgress` and change nothing.  Non-matching
tags are ignored. -/
def cbMsg (σ : SysState) (tag : List Char) : SysState × Option Outcome :=
  if startsWithNoCase msgPfx tag then
    if lowerEq (tag.drop msgPfx.length) reloadTag then
      if σ.reloading = false then
        (⟨σ.store, true, σ.tasks ++ [TaskPhase.started], σ.built, σ.observed⟩,
          some Outcome.accepted)
      else
        (σ, some Outcome.rejectedInProgress)
    else (σ, none)
  else (σ, none)

/-- Advance scheduled task `i` by one atomic step of
`Task_ConfigReload`:
`started`: `cfg = std::make_shared<Config>()` — a default-constructed
`Config` with empty `_data` (the task performs no load); construction
completes here, so `cfg` joins `built`.
`builtCfg c`: the `errata.is_ok()` test — on the (always taken) ok
branch, assign `Plugin_Config = cfg` under the unique lock; otherwise
only `TSError` would run.
`published`: `Plugin_Reloading = false`, and the task is done. -/
def taskAdvance (σ : SysState) (i : Nat) : SysState :=
  match σ.tasks.get? i with
  | none => σ
  | some TaskPhase.started =>
    let cfg : Snapshot := ⟨[]⟩
    ⟨σ.store, σ.reloading, σ.tasks.set i (TaskPhase.builtCfg cfg),
      cfg :: σ.built, σ.observed⟩
  | some (TaskPhase.builtCfg c) =>
    if defaultErrataOk then
      ⟨some c, σ.reloading, σ.tasks.set i TaskPhase.published,
        σ.built, σ.observed⟩
    else
      ⟨σ.store, σ.reloading, σ.tasks.set i TaskPhase.published,
        σ.built, σ.observed⟩
  | some TaskPhase.published =>
    ⟨σ.store, false, σ.tasks.eraseIdx i, σ.built, σ.observed⟩

/-- `scoped_plugin_config()`: copy the `Plugin_Config` handle under the
shared lock.  A non-empty handle is recorded as observed. -/
def readConfig (σ : SysState) : SysState × Option Snapshot :=
  match σ.store with
  | none => (σ, none)
  | some s =>
    (⟨σ.store, σ.reloading, σ.tasks, σ.built, s :: σ.observed⟩, some s)

/-- The interleaved atomic events. -/
inductive Event
  | msg (tag : List Char)
  | taskStep (i : Nat)
  | readCfg
deriving DecidableEq

/-- Effect of one event on the shared state. -/
def applyEvent (σ : SysState) : Event → SysState
  | Event.msg tag => (cbMsg σ tag).1
  | Event.taskStep i => taskAdvance σ i
  | Event.readCfg => (readConfig σ).1

/-- Run a sequence of events. -/
def runEvents (σ : SysState) (evs : List Event) : SysState :=
  evs.foldl applyEvent σ

/-- State after `Init` ran at startup: `Plugin_Config` holds the
default-constructed `Config` installed by
`Plugin_Config = std::make_shared<Config>()` (fully constructed, data
empty — `Init` never calls `Config::load`), the reload flag is false,
and no task is scheduled. -/
def initState : SysState := ⟨some ⟨[]⟩, false, [], [⟨[]⟩], []⟩

/-- The full reload message tag. -/
def reloadMsg : List Char := "id_check.reload".toList

/-! ## The `Init` argument loop

`Init`'s brace structure pairs the `return Errata()` success statement
with the non-option branch inside the `for` loop, and the function body
has no statements after the loop (the closing of the function is
missing from the source text); completing the loop without reaching a
`return` is modelled as the distinct result `fellThrough`. -/

/-- Results of `Init`'s argument processing.  The error constructors
carry the index used in the corresponding `Errata` message. -/
inductive InitRes
  | ok
  | errNoName (idx : Nat)
  | errMissingValue (idx : Nat)
  | errUnrecognized (idx : Nat)
  | fellThrough
deriving DecidableEq

/-- Result of the argument loop together with the final value of the
local `path` variable. -/
structure InitOut where
  result : InitRes
  path : String
deriving DecidableEq

/-- `KEY_PATH`. -/
def keyPath : List Char := "path".toList

/-- The `for` loop of `Init` over the remaining arguments, carrying the
running index `idx` and the local `path`.  Per iteration: an empty
argument is skipped; a non-option argument hits the loop's trailing
`return Errata()`; an option has its leading dashes stripped
(`ltrim('-')`), an empty remainder is a fatal error; `prefix_at('=')`
yields a non-empty prefix only when `=` occurs at a positive position,
giving the `name=value` form, and otherwise the next argument is
consumed as the value (fatal if absent); a name passing
`starts_with_nocase("path")` stores the value in `path`, any other name
is a fatal error. -/
def initLoop : Nat → List String → String → InitOut
  | _, [], path => ⟨InitRes.fellThrough, path⟩
  | idx, a :: rest, path =>
    let arg := a.toList
    if arg.isEmpty then
      initLoop (idx + 1) rest path
    else if arg.head? = some '-' then
      let name := arg.dropWhile (fun c => c = '-')
      if name.isEmpty then
        ⟨InitRes.errNoName idx, path⟩
      else
        let pre := name.takeWhile (fun c => c ≠ '=')
        if pre.length ≠ name.length ∧ pre.length ≠ 0 then
          let value := name.drop (pre.length + 1)
          if startsWithNoCase keyPath pre then
            initLoop (idx + 1) rest (String.mk value)
          else
            ⟨InitRes.errUnrecognized idx, path⟩
        else
          match rest with
          | [] => ⟨InitRes.errMissingValue (idx + 1), path⟩
          | v :: rest2 =>
            if startsWithNoCase keyPath name then
              initLoop (idx + 2) rest2 v
            else
              ⟨InitRes.errUnrecognized (idx + 1), path⟩
    else
      ⟨InitRes.ok, path⟩

/-- Outcome of `Init`: the loop's result, the resolved `path`, and the
`Plugin_Config` slot as `Init` leaves it. -/
structure InitFull where
  result : InitRes
  path : String
  store : Option Snapshot
deriving DecidableEq

/-- Whether an `InitRes` is one of `Init`'s `Errata` error returns. -/
def initResFatal : InitRes → Bool
  | InitRes.errNoName _ => true
  | InitRes.errMissingValue _ => true
  | InitRes.errUnrecognized _ => true
  | _ => false

/-- `Init(argv)` against a file system `fs`.  The body installs
`Plugin_Config = std::make_shared<Config>()` (a fully constructed empty
`Config`) before anything else, checks a default-constructed `Errata`
(always ok), and runs the argument loop.  No part of `Init` reads the
configured file: `fs` is never consulted. -/
def initRun (fs : String → Option String) (argv : List String) : InitFull :=
  let _ := fs
  let store : Option Snapshot := some ⟨[]⟩
  if defaultErrataOk then
    let o := initLoop 0 argv ""
    ⟨o.result, o.path, store⟩
  else
    ⟨InitRes.fellThrough, "", store⟩

/-- The totally unreadable file system. -/
def fsNone : String → Option String := fun _ => none

/-- State of the host bindings after `TSPluginInit`. -/
structure HostState where
  hooksInstalled : Bool
  store : Option Snapshot
deriving DecidableEq

/-- `TSPluginInit`: calls `Init` and discards its `Errata` result
(no registration is attempted and no abort occurs), then installs the
message and shutdown hooks unconditionally. -/
def tsPluginInit (fs : String → Option String) (argv : List String) :
    HostState :=
  let r := initRun fs argv
  ⟨true, r.store⟩

/-- The terminal step of a running reload: the task's final action
(`Plugin_Reloading = false` after the publish or error report), i.e.
the only event that makes the accepted reload's outcome known. -/
def TerminalStep (σ : SysState) (e : Event) : Prop :=
  ∃ i, e = Event.taskStep i ∧ σ.tasks.get? i = some TaskPhase.published

/-- A run of events from `σ` to `σ'` during which no running reload
reaches its terminal action — i.e. the second request in the claim
arrives (at `σ'`) before the first reload's outcome is known. -/
inductive FlagHeld : SysState → List Event → SysState → Prop
  | nil (σ : SysState) : FlagHeld σ [] σ
  | cons (σ : SysState) (e : Event) (evs : List Event) (σ' : SysState) :
      ¬ TerminalStep σ e → FlagHeld (applyEvent σ e) evs σ' →
      FlagHeld σ (e :: evs) σ'

/-- Integrity invariant of the shared state: every snapshot a reader
observed, every snapshot in the store, and every snapshot held by a
partially-run task is one whose construction fully completed (it is
recorded in `built`), and every fully built snapshot's data is
sorted. -/
def GoodState (σ : SysState) : Prop :=
  (∀ s ∈ σ.observed, s ∈ σ.built) ∧
  (∀ s, σ.store = some s → s ∈ σ.built) ∧
  (∀ c, TaskPhase.builtCfg c ∈ σ.tasks → c ∈ σ.built) ∧
  (∀ s ∈ σ.built, List.Sorted (fun a b => a ≤ b) s.data)

/-- Single-flight bookkeeping invariant: at most one reload task exists
at any time, and the `Plugin_Reloading` flag is raised exactly while
one does. -/
def FlagTasks (σ : SysState) : Prop :=
  σ.tasks.length ≤ 1 ∧ (σ.reloading = true ↔ σ.tasks ≠ [])

/-! ## Helper lemmas -/

/-- While the loop guard `left < right` holds, no iteration of the
`Config::contains` loop changes `left` or `right`, so the loop consumes
all fuel without producing a result. -/
theorem containsLoop_guard_true (fuel left right : Nat)
    (h : left < right) : containsLoop fuel left right = none := by
  induction fuel with
  | zero => rfl
  | succ f ih => simp [containsLoop, h, ih]

/-- The `Config::contains` loop can never produce a boolean: inside the
loop nothing returns, and after the loop the function has no `return`
statement. -/
theorem containsLoop_no_bool (fuel left right : Nat) (b : Bool) :
    containsLoop fuel left right ≠ some (some b) := by
  induction fuel with
  | zero => simp [containsLoop]
  | succ f ih =>
    by_cases h : left < right
    · simpa [containsLoop, h] using ih
    · simp [containsLoop, h]

/-- An accepted reload request: the compare-and-set wins when the flag
is down, raising it and scheduling the task in one step. -/
theorem cbMsg_accept (σ : SysState) (tag : List Char)
    (h1 : startsWithNoCase msgPfx tag = true)
    (h2 : lowerEq (tag.drop msgPfx.length) reloadTag = true)
    (h : σ.reloading = false) :
    cbMsg σ tag =
      (⟨σ.store, true, σ.tasks ++ [TaskPhase.started], σ.built,
        σ.observed⟩, some Outcome.accepted) := by
  simp [cbMsg, h1, h2, h]

/-- A rejected reload request: when the flag is up the compare-and-set
fails, the error is reported and the state is untouched. -/
theorem cbMsg_reject (σ : SysState) (tag : List Char)
    (h1 : startsWithNoCase msgPfx tag = true)
    (h2 : lowerEq (tag.drop msgPfx.length) reloadTag = true)
    (h : σ.reloading = true) :
    cbMsg σ tag = (σ, some Outcome.rejectedInProgress) := by
  simp [cbMsg, h1, h2, h]

/-- While the flag is up, no event other than the running task's
terminal action lowers it. -/
theorem reloading_stays (σ : SysState) (e : Event)
    (h : σ.reloading = true) (hnt : ¬ TerminalStep σ e) :
    (applyEvent σ e).reloading = true := by
  cases e with
  | msg tag =>
    simp only [applyEvent, cbMsg]
    split_ifs <;> simp [h]
  | taskStep i =>
    simp only [applyEvent, taskAdvance]
    cases hg : σ.tasks.get? i with
    | none => exact h
    | some ph =>
      cases ph with
      | started => exact h
      | builtCfg c => simp [defaultErrataOk, h]
      | published => exact absurd ⟨i, rfl, hg⟩ hnt
  | readCfg =>
    simp only [applyEvent, readConfig]
    cases hs : σ.store with
    | none => exact h
    | some s => exact h

/-- The flag stays up across a run that contains no terminal action of
a running reload. -/
theorem flagHeld_reloading {σ σ' : SysState} {evs : List Event}
    (hh : FlagHeld σ evs σ') (h : σ.reloading = true) :
    σ'.reloading = true := by
  induction hh with
  | nil τ => exact h
  | cons τ e l τ' hnt hrest ih => exact ih (reloading_stays τ e h hnt)

/-- While the flag is up, an event lowers it exactly when it is the
running task's terminal action. -/
theorem reload_flag_clear_iff (σ : SysState) (e : Event)
    (h : σ.reloading = true) :
    ((applyEvent σ e).reloading = false ↔ TerminalStep σ e) := by
  constructor
  · intro hc
    by_contra hnt
    rw [reloading_stays σ e h hnt] at hc
    exact Bool.noConfusion hc
  · rintro ⟨i, rfl, hg⟩
    have hg2 : σ.tasks[i]? = some TaskPhase.published := by
      rw [← List.get?_eq_getElem?]; exact hg
    simp [applyEvent, taskAdvance, hg2]

/-- One event preserves the single-flight bookkeeping invariant. -/
theorem flagTasks_step (σ : SysState) (e : Event) (h : FlagTasks σ) :
    FlagTasks (applyEvent σ e) := by
  obtain ⟨hlen, hiff⟩ := h
  cases e with
  | msg tag =>
    simp only [applyEvent, cbMsg]
    split_ifs with hp hr hf
    · have ht : σ.tasks = [] := by
        by_contra hne
        rw [hiff.mpr hne] at hf
        exact Bool.noConfusion hf
      constructor
      · simp [ht]
      · simp [ht]
    · exact ⟨hlen, hiff⟩
    · exact ⟨hlen, hiff⟩
    · exact ⟨hlen, hiff⟩
  | taskStep i =>
    simp only [applyEvent, taskAdvance]
    cases hg : σ.tasks.get? i with
    | none => exact ⟨hlen, hiff⟩
    | some ph =>
      have hi : i < σ.tasks.length := by
        by_contra hn
        rw [List.get?_eq_none.mpr (Nat.le_of_not_lt hn)] at hg
        exact Option.noConfusion hg
      have hne : σ.tasks ≠ [] := by
        intro hnil
        rw [hnil] at hi
        exact Nat.not_lt_zero i hi
      have hset : ∀ t : TaskPhase, FlagTasks
          ⟨σ.store, σ.reloading, σ.tasks.set i t, σ.built, σ.observed⟩ := by
        intro t
        constructor
        · simpa [List.length_set] using hlen
        · have hsne : σ.tasks.set i t ≠ [] := by
            intro hnil
            have hlz := congrArg List.length hnil
            rw [List.length_set] at hlz
            rw [List.length_eq_zero.mp hlz] at hi
            exact Nat.not_lt_zero i hi
          exact ⟨fun _ => hsne, fun _ => hiff.mpr hne⟩
      cases ph with
      | started => exact hset _
      | builtCfg c =>
        simp only [defaultErrataOk, if_true]
        exact hset _
      | published =>
        have hone : σ.tasks.length = 1 := by omega
        have hez : (σ.tasks.eraseIdx i).length = 0 := by
          rw [List.length_eraseIdx_of_lt hi, hone]
        rw [List.length_eq_zero.mp hez]
        exact ⟨by simp, by simp⟩
  | readCfg =>
    simp only [applyEvent, readConfig]
    cases hs : σ.store with
    | none => exact ⟨hlen, hiff⟩
    | some s => exact ⟨hlen, hiff⟩

/-- The single-flight bookkeeping invariant holds in every reachable
state. -/
theorem flagTasks_run (evs : List Event) :
    FlagTasks (runEvents initState evs) := by
  have h0 : FlagTasks initState := ⟨by simp [initState], by simp [initState]⟩
  suffices h : ∀ σ, FlagTasks σ → FlagTasks (runEvents σ evs) from h _ h0
  induction evs with
  | nil => intro σ h; exact h
  | cons e l ih => intro σ h; exact ih _ (flagTasks_step σ e h)

/-- One event preserves the state integrity invariant: new snapshots
enter `built` at the construction step, the publish step can only
install a snapshot a task finished building, readers only record what
the store holds, and nothing re-enters a task after publication. -/
theorem goodState_step (σ : SysState) (e : Event) (h : GoodState σ) :
    GoodState (applyEvent σ e) := by
  obtain ⟨hobs, hsto, htask, hsort⟩ := h
  cases e with
  | msg tag =>
    simp only [applyEvent, cbMsg]
    split_ifs with hp hr hf
    · refine ⟨hobs, hsto, ?_, hsort⟩
      intro c hc
      rcases List.mem_append.mp hc with hc1 | hc2
      · exact htask c hc1
      · simp at hc2
    · exact ⟨hobs, hsto, htask, hsort⟩
    · exact ⟨hobs, hsto, htask, hsort⟩
    · exact ⟨hobs, hsto, htask, hsort⟩
  | taskStep i =>
    simp only [applyEvent, taskAdvance]
    cases hg : σ.tasks.get? i with
    | none => exact ⟨hobs, hsto, htask, hsort⟩
    | some ph =>
      cases ph with
      | started =>
        refine ⟨?_, ?_, ?_, ?_⟩
        · intro s hs
          exact List.mem_cons_of_mem _ (hobs s hs)
        · intro s hs
          exact List.mem_cons_of_mem _ (hsto s hs)
        · intro c hc
          rcases List.mem_or_eq_of_mem_set hc with hc1 | hc2
          · exact List.mem_cons_of_mem _ (htask c hc1)
          · injection hc2 with hc3
            rw [hc3]
            exact List.mem_cons_self _ _
        · intro s hs
          rcases List.mem_cons.mp hs with hs1 | hs2
          · rw [hs1]
            exact List.sorted_nil
          · exact hsort s hs2
      | builtCfg c =>
        simp only [defaultErrataOk, if_true]
        refine ⟨hobs, ?_, ?_, hsort⟩
        · intro s hs
          injection hs with hs2
          rw [← hs2]
          exact htask c (List.get?_mem hg)
        · intro c2 hc2
          rcases List.mem_or_eq_of_mem_set hc2 with hc3 | hc4
          · exact htask c2 hc3
          · exact TaskPhase.noConfusion hc4
      | published =>
        refine ⟨hobs, hsto, ?_, hsort⟩
        intro c hc
        exact htask c ((List.eraseIdx_sublist σ.tasks i).mem hc)
  | readCfg =>
    simp only [applyEvent, readConfig]
    cases hs : σ.store with
    | none => exact ⟨hobs, hsto, htask, hsort⟩
    | some s =>
      refine ⟨?_, ?_, htask, hsort⟩
      · intro x hx
        rcases List.mem_cons.mp hx with hx1 | hx2
        · rw [hx1]
          exact hsto s hs
        · exact hobs x hx2
      · intro x hx
        injection hx with hx2
        rw [← hx2]
        exact hsto s hs

/-- The state integrity invariant holds in every reachable state. -/
theorem goodState_run (evs : List Event) :
    GoodState (runEvents initState evs) := by
  have h0 : GoodState initState := by
    refine ⟨by simp [initState], ?_, by simp [initState], ?_⟩
    · intro s hs
      injection hs with hs2
      rw [← hs2]
      exact List.mem_cons_self _ _
    · intro s hs
      rcases List.mem_cons.mp hs with hs1 | hs2
      · rw [hs1]
        exact List.sorted_nil
      · simp at hs2
  suffices h : ∀ σ, GoodState σ → GoodState (runEvents σ evs) from h _ h0
  induction evs with
  | nil => intro σ h; exact h
  | cons e l ih => intro σ h; exact ih _ (goodState_step σ e h)

/-- Unfolding of the argument loop on a single remaining argument. -/
theorem initLoop_cons1 (idx : Nat) (a : String) (path : String) :
    initLoop idx [a] path =
    (let arg := a.toList
    if arg.isEmpty then
      initLoop (idx + 1) [] path
    else if arg.head? = some '-' then
      let name := arg.dropWhile (fun c => c = '-')
      if name.isEmpty then
        ⟨InitRes.errNoName idx, path⟩
      else
        let pre := name.takeWhile (fun c => c ≠ '=')
        if pre.length ≠ name.length ∧ pre.length ≠ 0 then
          let value := name.drop (pre.length + 1)
          if startsWithNoCase keyPath pre then
            initLoop (idx + 1) [] (String.mk value)
          else
            ⟨InitRes.errUnrecognized idx, path⟩
        else
          ⟨InitRes.errMissingValue (idx + 1), path⟩
    else
      ⟨InitRes.ok, path⟩) := rfl

/-- Unfolding of the argument loop on at least two remaining
arguments. -/
theorem initLoop_cons2 (idx : Nat) (a v : String) (rest2 : List String)
    (path : String) :
    initLoop idx (a :: v :: rest2) path =
    (let arg := a.toList
    if arg.isEmpty then
      initLoop (idx + 1) (v :: rest2) path
    else if arg.head? = some '-' then
      let name := arg.dropWhile (fun c => c = '-')
      if name.isEmpty then
        ⟨InitRes.errNoName idx, path⟩
      else
        let pre := name.takeWhile (fun c => c ≠ '=')
        if pre.length ≠ name.length ∧ pre.length ≠ 0 then
          let value := name.drop (pre.length + 1)
          if startsWithNoCase keyPath pre then
            initLoop (idx + 1) (v :: rest2) (String.mk value)
          else
            ⟨InitRes.errUnrecognized idx, path⟩
        else
          if startsWithNoCase keyPath name then
            initLoop (idx + 2) rest2 v
          else
            ⟨InitRes.errUnrecognized (idx + 1), path⟩
    else
      ⟨InitRes.ok, path⟩) := rfl

/-- `takeWhile` stops exactly at the first failing element. -/
theorem takeWhile_eq_of_append (p : Char → Bool) (l1 : List Char)
    (c : Char) (l2 : List Char)
    (h1 : ∀ d ∈ l1, p d = true) (hc : p c = false) :
    (l1 ++ c :: l2).takeWhile p = l1 := by
  induction l1 with
  | nil => simp [List.takeWhile_cons, hc]
  | cons d l ih =>
    simp [List.takeWhile_cons, h1 d (List.mem_cons_self d l),
      ih fun e he => h1 e (List.mem_cons_of_mem d he)]

/-- `takeWhile` keeps a list all of whose elements pass. -/
theorem takeWhile_all (p : Char → Bool) (l : List Char)
    (h : ∀ d ∈ l, p d = true) : l.takeWhile p = l := by
  induction l with
  | nil => rfl
  | cons d t ih =>
    simp [List.takeWhile_cons, h d (List.mem_cons_self d t),
      ih fun e he => h e (List.mem_cons_of_mem d he)]

/-- Dropping one past a front segment lands right after the marker. -/
theorem drop_eq_of_append (l1 : List Char) (c : Char) (l2 : List Char) :
    (l1 ++ c :: l2).drop (l1.length + 1) = l2 := by
  induction l1 with
  | nil => rfl
  | cons d l ih => simp [ih]

/-- A dash-prefixed argument that is all dashes (empty name after
`ltrim('-')`) hits `Init`'s "option prefix but no name" error. -/
theorem initLoop_noName (idx : Nat) (path : String) (rest : List String)
    (a : String) (hne : a.toList ≠ [])
    (hstrip : a.toList.dropWhile (fun c => c = '-') = []) :
    initLoop idx (a :: rest) path = ⟨InitRes.errNoName idx, path⟩ := by
  have h1 : a.toList.isEmpty = false := by
    cases h : a.toList with
    | nil => exact absurd h hne
    | cons c cs => rfl
  have hd : a.toList.head? = some '-' := by
    cases h : a.toList with
    | nil => exact absurd h hne
    | cons c cs =>
      by_cases hc : c = '-'
      · simp [hc]
      · rw [h] at hstrip
        simp [List.dropWhile_cons, hc] at hstrip
  cases rest with
  | nil =>
    rw [initLoop_cons1]
    simp only [h1, Bool.false_eq_true, if_false]
    rw [if_pos hd]
    simp only [hstrip, List.isEmpty_nil, if_true]
  | cons v r2 =>
    rw [initLoop_cons2]
    simp only [h1, Bool.false_eq_true, if_false]
    rw [if_pos hd]
    simp only [hstrip, List.isEmpty_nil, if_true]

/-- Behaviour of one `Init` loop iteration on a dash-prefixed option in
the separate-value form (no `=` in the stripped name): an unrecognized
name is a fatal error, a recognized one consumes the next argument as
the value, and a missing value argument is a fatal error. -/
theorem initLoop_sepForm (idx : Nat) (path : String) (a v : String)
    (rest2 : List String) (name : List Char)
    (hd : a.toList.head? = some '-')
    (hstrip : a.toList.dropWhile (fun c => c = '-') = name)
    (hname : name ≠ []) (hnoeq : ¬ '=' ∈ name) :
    (startsWithNoCase keyPath name = false →
      initLoop idx (a :: v :: rest2) path
        = ⟨InitRes.errUnrecognized (idx + 1), path⟩) ∧
    (startsWithNoCase keyPath name = true →
      initLoop idx (a :: v :: rest2) path = initLoop (idx + 2) rest2 v) ∧
    initLoop idx [a] path = ⟨InitRes.errMissingValue (idx + 1), path⟩ := by
  have hne : a.toList ≠ [] := by
    intro h; rw [h] at hd; exact Option.noConfusion hd
  have h1 : a.toList.isEmpty = false := by
    cases h : a.toList with
    | nil => exact absurd h hne
    | cons c cs => rfl
  have hne2 : name.isEmpty = false := by
    cases h : name with
    | nil => exact absurd h hname
    | cons c cs => rfl
  have htw : name.takeWhile (fun c => c ≠ '=') = name := by
    apply takeWhile_all
    intro d hdm
    simp only [decide_eq_true_eq]
    intro he
    exact hnoeq (he ▸ hdm)
  have hlen : ¬ (name.length ≠ name.length ∧ name.length ≠ 0) := by simp
  refine ⟨fun hnm => ?_, fun hm => ?_, ?_⟩
  · rw [initLoop_cons2]
    simp only [h1, Bool.false_eq_true, if_false]
    rw [if_pos hd]
    simp only [hstrip, hne2, Bool.false_eq_true, if_false, htw]
    rw [if_neg hlen]
    simp only [hnm, Bool.false_eq_true, if_false]
  · rw [initLoop_cons2]
    simp only [h1, Bool.false_eq_true, if_false]
    rw [if_pos hd]
    simp only [hstrip, hne2, Bool.false_eq_true, if_false, htw]
    rw [if_neg hlen]
    simp only [hm, if_true]
  · rw [initLoop_cons1]
    simp only [h1, Bool.false_eq_true, if_false]
    rw [if_pos hd]
    simp only [hstrip, hne2, Bool.false_eq_true, if_false, htw]
    rw [if_neg hlen]

/-- Behaviour of one `Init` loop iteration on a dash-prefixed option in
the `name=value` form: an unrecognized name is a fatal error using the
current index. -/
theorem initLoop_eqForm (idx : Nat) (path : String) (rest : List String)
    (a : String) (pre value : List Char)
    (hd : a.toList.head? = some '-')
    (hstrip : a.toList.dropWhile (fun c => c = '-') = pre ++ '=' :: value)
    (hpre : pre ≠ []) (hnoeq : ¬ '=' ∈ pre)
    (hnm : startsWithNoCase keyPath pre = false) :
    initLoop idx (a :: rest) path = ⟨InitRes.errUnrecognized idx, path⟩ := by
  have hne : a.toList ≠ [] := by
    intro h; rw [h] at hd; exact Option.noConfusion hd
  have h1 : a.toList.isEmpty = false := by
    cases h : a.toList with
    | nil => exact absurd h hne
    | cons c cs => rfl
  have hne2 : (pre ++ '=' :: value).isEmpty = false := by simp
  have htw : (pre ++ '=' :: value).takeWhile (fun c => c ≠ '=') = pre := by
    apply takeWhile_eq_of_append
    · intro d hdm
      simp only [decide_eq_true_eq]
      intro he
      exact hnoeq (he ▸ hdm)
    · simp
  have hlen : pre.length ≠ (pre ++ '=' :: value).length ∧
      pre.length ≠ 0 := by
    constructor
    · simp only [List.length_append, List.length_cons]
      omega
    · intro h
      exact hpre (List.eq_nil_of_length_eq_zero h)
  cases rest with
  | nil =>
    rw [initLoop_cons1]
    simp only [h1, Bool.false_eq_true, if_false]
    rw [if_pos hd]
    simp only [hstrip, hne2, Bool.false_eq_true, if_false, htw]
    rw [if_pos hlen]
    simp only [hnm, Bool.false_eq_true, if_false]
  | cons v r2 =>
    rw [initLoop_cons2]
    simp only [h1, Bool.false_eq_true, if_false]
    rw [if_pos hd]
    simp only [hstrip, hne2, Bool.false_eq_true, if_false, htw]
    rw [if_pos hlen]
    simp only [hnm, Bool.false_eq_true, if_false]

/-! ## Claims -/

/-- C1: the claim asserts that after `Config::load` of a serialization
of a set S (here S = (set 5), serialized "5"), `Config::contains(x)`
returns true iff x is in S.  The code refutes this: the load does
produce the data [5], but the `contains` loop never narrows its
interval and contains no `return`, so the query for the member 5 never
returns at all — for every amount of fuel the loop is still running. -/
theorem c1_contains_never_answers :
    loadValues "5" = [5] ∧
    ∀ fuel, containsRun fuel (loadValues "5") 5 = none := by
  refine ⟨by decide, fun fuel => ?_⟩
  have h : loadValues "5" = [5] := by decide
  rw [h]
  exact containsLoop_guard_true fuel 0 1 (by decide)

/-- C2: the claim asserts that the binary-search loop of
`Config::contains` terminates with a boolean for every snapshot state.
The code refutes this: on every input the function never produces a
boolean (there is no `return` statement anywhere in it), and on every
non-empty `_data` the loop guard stays true for ever because the body
updates neither bound. -/
theorem c2_contains_loop_defective (fuel : Nat) (data : List Nat)
    (id : Nat) :
    (∀ b : Bool, containsRun fuel data id ≠ some (some b)) ∧
    (data ≠ [] → containsRun fuel data id = none) := by
  constructor
  · intro b
    exact containsLoop_no_bool fuel 0 data.length b
  · intro h
    exact containsLoop_guard_true fuel 0 data.length
      (List.length_pos.mpr h)

/-- Witness for C2 at a concrete non-empty snapshot. -/
theorem c2_contains_loop_defective_witness :
    containsRun 9 [5] 7 = none :=
  (c2_contains_loop_defective 9 [5] 7).2 (by decide)

/-- C7: `Config::load` produces an `Errata` error exactly when reading
the source fails at the I/O level; a token that does not fully parse is
silently discarded and has no effect on the values collected from the
fully-parsing tokens; on the spec's example input the discarded token
"xx9" leaves 12 and 7 (and no 9) in the data. -/
theorem c7_load_error_iff_io :
    (∀ fs file, (∃ e, loadRes fs file = Except.error e) ↔ fs file = none) ∧
    (∀ t l1 l2, parseTok t = none →
        collectVals (l1 ++ t :: l2) = collectVals (l1 ++ l2)) ∧
    loadValues "12, xx9, 7" = [7, 12] ∧
    (12 ∈ loadValues "12, xx9, 7" ∧ 7 ∈ loadValues "12, xx9, 7" ∧
      ¬ 9 ∈ loadValues "12, xx9, 7") := by
  refine ⟨fun fs file => ?_, fun t l1 l2 h => ?_, by decide, by decide⟩
  · cases h : fs file <;> simp [loadRes, h]
    exact ⟨LoadErr.ioError, trivial⟩
  · simp [collectVals, List.filterMap_append, List.filterMap_cons, h]

/-- Witness for C7 at the unreadable file system and at the concrete
malformed token "xx9" of the spec's example. -/
theorem c7_load_error_iff_io_witness :
    (∃ e, loadRes fsNone "ids.txt" = Except.error e) ∧
    collectVals (["12".toList] ++ "xx9".toList :: ["7".toList])
      = collectVals (["12".toList] ++ ["7".toList]) :=
  ⟨(c7_load_error_iff_io.1 fsNone "ids.txt").mpr rfl,
   c7_load_error_iff_io.2.1 "xx9".toList ["12".toList] ["7".toList]
     (by decide)⟩

/-- C8 counterexample: the claim asserts that a value occurring twice
in the source appears at most once in the stored sequence; on the
source text "5 5" both occurrences survive `std::sort` (which does not
deduplicate), so 5 is stored twice. -/
theorem c8_duplicates_survive :
    ¬ ((loadValues "5 5").count 5 ≤ 1) := by decide

/-- C8 amended: after a successful `Config::load` the stored sequence
is sorted in non-decreasing order, and duplicates from the source are
retained as repeats — each value occurs exactly as often as it is
collected from the fully-parsing tokens, with no deduplication. -/
theorem c8_sorted_duplicates_retained (content : String) :
    List.Sorted (fun a b => a ≤ b) (loadValues content) ∧
    ∀ v, (loadValues content).count v
        = (collectVals (tokenize content.toList)).count v := by
  constructor
  · exact List.sorted_insertionSort _ _
  · intro v
    exact (List.perm_insertionSort _ _).count_eq v

/-- C3: the claim asserts that a reload with an unchanged source
publishes a snapshot with membership behaviour identical to the
previously published one.  The code refutes the intent:
`Task_ConfigReload` never invokes `Config::load`, so from a previously
published snapshot holding the data loaded from the source "5", a full
reload run (message accepted, task built, published, flag cleared)
installs the default-constructed empty snapshot — the identifier 5 is
in the old snapshot's data and not in the new one's. -/
theorem c3_reload_discards_loaded_data :
    loadValues "5" = [5] ∧
    (runEvents ⟨some ⟨loadValues "5"⟩, false, [], [⟨loadValues "5"⟩], []⟩
        [Event.msg reloadMsg, Event.taskStep 0, Event.taskStep 0,
          Event.taskStep 0]).store = some ⟨[]⟩ ∧
    5 ∈ loadValues "5" ∧ ¬ 5 ∈ ([] : List Nat) ∧
    (⟨[]⟩ : Snapshot) ≠ ⟨loadValues "5"⟩ := by decide

/-- C6: the claim asserts that an unreadable source path at
initialization is fatal and leaves the store unqueryable, a startup
load being attempted before initialization completes.  The code
refutes this: `Init` never consults the file system at all (its result
is the same for every file system, in particular the totally unreadable
one), it reports no fatal error for the path option naming a missing
file, it installs a queryable empty snapshot in `Plugin_Config` before
parsing arguments, and `TSPluginInit` discards `Init`'s result and
installs the hooks unconditionally. -/
theorem c6_startup_failure_not_fatal :
    (∀ fs, initRun fs ["-path", "missing"]
        = initRun fsNone ["-path", "missing"]) ∧
    (initRun fsNone ["-path", "missing"]).result = InitRes.fellThrough ∧
    initResFatal (initRun fsNone ["-path", "missing"]).result = false ∧
    (initRun fsNone ["-path", "missing"]).store = some ⟨[]⟩ ∧
    tsPluginInit fsNone ["-path", "missing"] = ⟨true, some ⟨[]⟩⟩ :=
  ⟨fun _ => rfl, by decide, by decide, by decide, by decide⟩

/-- C10: as soon as the argument loop of `Init` meets a non-empty
argument that does not begin with a dash, it returns success
immediately (the loop's trailing `return Errata()`), and the remaining
arguments are never inspected: the outcome is the same for every
continuation of the argument vector. -/
theorem c10_early_return (idx : Nat) (path : String) (a : String)
    (rest rest' : List String)
    (hne : a.toList ≠ []) (hnd : a.toList.head? ≠ some '-') :
    initLoop idx (a :: rest) path = ⟨InitRes.ok, path⟩ ∧
    initLoop idx (a :: rest) path = initLoop idx (a :: rest') path := by
  have h1 : a.toList.isEmpty = false := by
    cases h : a.toList with
    | nil => exact absurd h hne
    | cons c cs => rfl
  have key : ∀ r : List String,
      initLoop idx (a :: r) path = ⟨InitRes.ok, path⟩ := by
    intro r
    cases r with
    | nil =>
      rw [initLoop_cons1]
      simp only [h1, Bool.false_eq_true, if_false, if_neg hnd]
    | cons v r2 =>
      rw [initLoop_cons2]
      simp only [h1, Bool.false_eq_true, if_false, if_neg hnd]
  exact ⟨key rest, (key rest).trans (key rest').symm⟩

/-- Witness for C10: the malformed option "-bogus" after the non-option
argument "x" never causes an error. -/
theorem c10_early_return_witness :
    initLoop 0 ["x", "-bogus"] "" = ⟨InitRes.ok, ""⟩ ∧
    initLoop 0 ["x", "-bogus"] "" = initLoop 0 ["x"] "" :=
  c10_early_return 0 "" "x" ["-bogus"] [] (by decide) (by decide)

/-- C9 counterexample: the claim asserts that a dash-prefixed option
whose name is not exactly `path` is a fatal configuration error; the
code matches option names with `starts_with_nocase("path")`, so the
unrecognized name "pathz" is accepted as the path option and `Init`
reports no error at all. -/
theorem c9_prefix_match_not_fatal :
    initLoop 0 ["-pathz", "v"] "" = ⟨InitRes.fellThrough, "v"⟩ ∧
    initResFatal (initRun fsNone ["-pathz", "v"]).result = false := by
  decide

/-- C9 (amended): for every argument vector processed by `Init`'s
loop, a dash-prefixed token whose name (after stripping dashes) is
empty is a fatal configuration error; a dash-prefixed option whose name
does not start, case-insensitively, with the recognized option `path`
is a fatal configuration error, both in `name=value` form and in
separate-value form (the original claim's "is not exactly `path`" fails
because the code uses `starts_with_nocase`); and an option given as
`name` followed by a separate value token consumes the next token as
its value, with a fatal error if no such token exists. -/
theorem c9_argument_grammar :
    (∀ idx path rest a, a.toList ≠ [] →
      a.toList.dropWhile (fun c => c = '-') = [] →
      initLoop idx (a :: rest) path = ⟨InitRes.errNoName idx, path⟩) ∧
    (∀ idx path rest a pre value, a.toList.head? = some '-' →
      a.toList.dropWhile (fun c => c = '-') = pre ++ '=' :: value →
      pre ≠ [] → ¬ '=' ∈ pre → startsWithNoCase keyPath pre = false →
      initLoop idx (a :: rest) path
        = ⟨InitRes.errUnrecognized idx, path⟩) ∧
    (∀ idx path a v rest2 name, a.toList.head? = some '-' →
      a.toList.dropWhile (fun c => c = '-') = name → name ≠ [] →
      ¬ '=' ∈ name → startsWithNoCase keyPath name = false →
      initLoop idx (a :: v :: rest2) path
        = ⟨InitRes.errUnrecognized (idx + 1), path⟩) ∧
    (∀ idx path a v rest2 name, a.toList.head? = some '-' →
      a.toList.dropWhile (fun c => c = '-') = name → name ≠ [] →
      ¬ '=' ∈ name → startsWithNoCase keyPath name = true →
      initLoop idx (a :: v :: rest2) path = initLoop (idx + 2) rest2 v) ∧
    (∀ idx path a name, a.toList.head? = some '-' →
      a.toList.dropWhile (fun c => c = '-') = name → name ≠ [] →
      ¬ '=' ∈ name →
      initLoop idx [a] path = ⟨InitRes.errMissingValue (idx + 1), path⟩) :=
  ⟨fun idx path rest a h1 h2 => initLoop_noName idx path rest a h1 h2,
   fun idx path rest a pre value h1 h2 h3 h4 h5 =>
     initLoop_eqForm idx path rest a pre value h1 h2 h3 h4 h5,
   fun idx path a v rest2 name h1 h2 h3 h4 h5 =>
     (initLoop_sepForm idx path a v rest2 name h1 h2 h3 h4).1 h5,
   fun idx path a v rest2 name h1 h2 h3 h4 h5 =>
     (initLoop_sepForm idx path a v rest2 name h1 h2 h3 h4).2.1 h5,
   fun idx path a name h1 h2 h3 h4 =>
     (initLoop_sepForm idx path a "" [] name h1 h2 h3 h4).2.2⟩

/-- Witness for C9 at concrete argument vectors: an all-dash token, an
unrecognized `name=value` option, an unrecognized separate-value
option, the recognized `path` option consuming its value, and the
recognized option with its value missing. -/
theorem c9_argument_grammar_witness :
    initLoop 0 ["--"] "" = ⟨InitRes.errNoName 0, ""⟩ ∧
    initLoop 0 ["-xyz=v"] "" = ⟨InitRes.errUnrecognized 0, ""⟩ ∧
    initLoop 0 ["-xyz", "v"] "" = ⟨InitRes.errUnrecognized 1, ""⟩ ∧
    initLoop 0 ["-path", "v", "w"] "" = initLoop 2 ["w"] "v" ∧
    initLoop 0 ["-path"] "" = ⟨InitRes.errMissingValue 1, ""⟩ :=
  ⟨c9_argument_grammar.1 0 "" [] "--" (by decide) (by decide),
   c9_argument_grammar.2.1 0 "" [] "-xyz=v" "xyz".toList "v".toList
     (by decide) (by decide) (by decide) (by decide) (by decide),
   c9_argument_grammar.2.2.1 0 "" "-xyz" "v" [] "xyz".toList
     (by decide) (by decide) (by decide) (by decide) (by decide),
   c9_argument_grammar.2.2.2.1 0 "" "-path" "v" ["w"] "path".toList
     (by decide) (by decide) (by decide) (by decide) (by decide),
   c9_argument_grammar.2.2.2.2 0 "" "-path" "path".toList
     (by decide) (by decide) (by decide) (by decide)⟩

/-- C4: single-flight guard.  From a state with the flag down, a
reload-tagged message is accepted (the compare-and-set raises the flag
and schedules the task); any second reload-tagged message arriving
before the accepted reload's terminal action is rejected with the
`ReloadAlreadyInProgress` report and no state change; while the flag is
up, an event lowers it exactly when it is the running task's terminal
action (the outcome becoming known); and in every reachable state at
most one reload task is in flight. -/
theorem c4_single_flight (σ σ' : SysState) (evs : List Event)
    (tag tag' : List Char)
    (ht1 : startsWithNoCase msgPfx tag = true)
    (ht2 : lowerEq (tag.drop msgPfx.length) reloadTag = true)
    (ht1' : startsWithNoCase msgPfx tag' = true)
    (ht2' : lowerEq (tag'.drop msgPfx.length) reloadTag = true)
    (h0 : σ.reloading = false)
    (hh : FlagHeld (cbMsg σ tag).1 evs σ') :
    (cbMsg σ tag).2 = some Outcome.accepted ∧
    ((cbMsg σ tag).1).reloading = true ∧
    σ'.reloading = true ∧
    cbMsg σ' tag' = (σ', some Outcome.rejectedInProgress) ∧
    (∀ τ e, τ.reloading = true →
      ((applyEvent τ e).reloading = false ↔ TerminalStep τ e)) ∧
    ∀ l, (runEvents initState l).tasks.length ≤ 1 := by
  have hacc := cbMsg_accept σ tag ht1 ht2 h0
  have hflag1 : ((cbMsg σ tag).1).reloading = true := by rw [hacc]
  have hflag' : σ'.reloading = true := flagHeld_reloading hh hflag1
  exact ⟨by rw [hacc], hflag1, hflag',
    cbMsg_reject σ' tag' ht1' ht2' hflag',
    fun τ e hτ => reload_flag_clear_iff τ e hτ,
    fun l => (flagTasks_run l).1⟩

/-- Witness for C4: two back-to-back reload messages from the initial
state, with no intervening events. -/
theorem c4_single_flight_witness :
    (cbMsg initState reloadMsg).2 = some Outcome.accepted ∧
    ((cbMsg initState reloadMsg).1).reloading = true ∧
    ((cbMsg initState reloadMsg).1).reloading = true ∧
    cbMsg ((cbMsg initState reloadMsg).1) reloadMsg
      = ((cbMsg initState reloadMsg).1,
          some Outcome.rejectedInProgress) ∧
    (∀ τ e, τ.reloading = true →
      ((applyEvent τ e).reloading = false ↔ TerminalStep τ e)) ∧
    ∀ l, (runEvents initState l).tasks.length ≤ 1 :=
  c4_single_flight initState ((cbMsg initState reloadMsg).1) []
    reloadMsg reloadMsg (by decide) (by decide) (by decide) (by decide)
    (by decide) (FlagHeld.nil _)

/-- C5: in every interleaving of reader calls with reload events,
every snapshot a reader observes is one whose construction fully
completed before it could be handed to the store (it is recorded in the
`built` history, which the publish step draws from), and its data is
sorted — no partially populated or partially sorted snapshot is ever
observed. -/
theorem c5_readers_see_fully_built (evs : List Event) (s : Snapshot)
    (hobs : s ∈ (runEvents initState evs).observed) :
    s ∈ (runEvents initState evs).built ∧
    List.Sorted (fun a b => a ≤ b) s.data := by
  have h := goodState_run evs
  exact ⟨h.1 s hobs, h.2.2.2 s (h.1 s hobs)⟩

/-- Witness for C5: a reader interleaved with a full reload observes a
fully built snapshot. -/
theorem c5_readers_see_fully_built_witness :
    (⟨[]⟩ : Snapshot) ∈ (runEvents initState
      [Event.msg reloadMsg, Event.taskStep 0, Event.readCfg,
        Event.taskStep 0, Event.taskStep 0, Event.readCfg]).built ∧
    List.Sorted (fun a b => a ≤ b) (Snapshot.mk []).data :=
  c5_readers_see_fully_built
    [Event.msg reloadMsg, Event.taskStep 0, Event.readCfg,
      Event.taskStep 0, Event.taskStep 0, Event.readCfg] ⟨[]⟩ (by decide)

end IdCheck
